import Mathlib

/-!
Shallow embedding of the `CLIPTextEncoder` executor (`clip_text.py`).

The component is a thin adapter: a constructor that records configuration and
a single request handler `encode` that

  * resolves the effective access path and batch size from the request
    `parameters` mapping, falling back to construction-time defaults
    (`parameters.get('access_paths', self.access_paths)` /
    `parameters.get('batch_size', self.batch_size)`),
  * selects a sub-sequence of the document collection via the access path,
  * filters it to documents with truthy (non-empty) `text`,
  * partitions the filtered documents into contiguous batches of at most the
    effective batch size (`DocumentArray.batch`),
  * per batch, tokenizes the texts and runs the model's text tower
    (`self.model.get_text_features(...)`), obtaining one vector per text,
  * writes vector `i` of the batch onto the `embedding` field of document `i`
    of the batch, mutating the shared document objects in place.

External collaborators are modelled as follows.

  * A document (`docarray.Document`) is a record with a `text` field
    (defaults to the empty string) and an optional `embedding` field; the
    field `other` stands in for every further field the encoder never touches.
  * The collection is a `List Document`; in-place mutation of the shared
    document objects is modelled by index-based updates into that list.
  * The docarray access-path selection `docs[path]` is external; only the
    root path `"@r"` (the reference configuration and the only path exercised
    by this repository) is modelled: it selects all top-level documents in
    order.  Theorems about the selected sub-sequence carry the hypothesis
    that the effective path is `"@r"`.
  * The tokenizer plus model forward pass is abstracted as a function
    `embed : String → List Int` applied to each text of a batch: the model
    library produces one fixed vector per input text.  Numeric values of the
    vectors are irrelevant to every claim, so scalars are `Int`.
  * A tokenizer/model runtime failure is modelled by an `Except`-valued batch
    call (`modelCall`), mirroring a Python exception unwinding the loop.
-/

/-- A document record: `text` is read, `embedding` is written, and `other`
stands in for every field of the document the encoder does not touch. -/
structure Document where
  text : String
  embedding : Option (List Int)
  other : String
deriving DecidableEq

instance : Inhabited Document := ⟨⟨"", none, ""⟩⟩

/-- Configuration state of the executor after `__init__` (its `self.*`
attributes, minus the loaded tokenizer/model handles, which are external). -/
structure CLIPTextEncoder where
  pretrained_model_name_or_path : String
  base_tokenizer_model : String
  max_length : Nat
  device : String
  access_paths : String
  batch_size : Nat
deriving DecidableEq

/-- Result of running `__init__`: the configured encoder plus the list of
deprecation warnings emitted during construction. -/
structure InitResult where
  self : CLIPTextEncoder
  deprecationWarnings : List String
deriving DecidableEq

/-- The text of the deprecation warning emitted for `traversal_paths`. -/
def traversalPathsWarning : String :=
  "traversal_paths will be deprecated in the future, please use access_paths."

/-- Embedding of `CLIPTextEncoder.__init__`.  Mirrors the source line by
line: `traversal_paths`, when not `None`, overwrites `access_paths` and emits
one deprecation warning; `base_tokenizer_model or pretrained_model_name_or_path`
uses Python truthiness, so both `None` and the empty string fall back to the
model identifier. -/
def CLIPTextEncoder.init (pretrained_model_name_or_path : String)
    (base_tokenizer_model : Option String) (max_length : Nat) (device : String)
    (access_paths : String) (traversal_paths : Option String)
    (batch_size : Nat) : InitResult :=
  let accessPathsField :=
    match traversal_paths with
    | some t => t
    | none => access_paths
  let warns :=
    match traversal_paths with
    | some _ => [traversalPathsWarning]
    | none => ([] : List String)
  let baseTok :=
    match base_tokenizer_model with
    | some s => if s = "" then pretrained_model_name_or_path else s
    | none => pretrained_model_name_or_path
  { self :=
      { pretrained_model_name_or_path := pretrained_model_name_or_path
        base_tokenizer_model := baseTok
        max_length := max_length
        device := device
        access_paths := accessPathsField
        batch_size := batch_size }
    deprecationWarnings := warns }

/-- Request parameters mapping: the two recognized keys, each possibly
absent (`parameters.get(key, default)`). -/
structure Params where
  access_paths : Option String
  batch_size : Option Nat
deriving DecidableEq

/-- Effective access path: `parameters.get('access_paths', self.access_paths)`. -/
def effAccessPaths (p : Params) (self : CLIPTextEncoder) : String :=
  p.access_paths.getD self.access_paths

/-- Effective batch size: `parameters.get('batch_size', self.batch_size)`. -/
def effBatchSize (p : Params) (self : CLIPTextEncoder) : Nat :=
  p.batch_size.getD self.batch_size

/-- Docarray access-path selection `docs[path]`, as indices into the flat
collection.  Only the root path `"@r"` is modelled (the docarray traversal
language is external); it selects every top-level document in order. -/
def selectPath (path : String) (docs : List Document) : List Nat :=
  if path = "@r" then List.range docs.length else []

/-- Text of the document at index `i` (docarray documents always carry a
text attribute, defaulting to the empty string). -/
def textAt (docs : List Document) (i : Nat) : String :=
  (docs.getD i default).text

/-- Indices of the selected documents passing the truthiness filter
`lambda x: bool(x.text)`: those whose text is non-empty. -/
def filteredIdx (self : CLIPTextEncoder) (p : Params) (docs : List Document) :
    List Nat :=
  (selectPath (effAccessPaths p self) docs).filter (fun i => textAt docs i != "")

/-- Fuel-indexed worker for `chunkList`: peels off `take b` repeatedly.  One
unit of fuel is spent per chunk; `xs.length` units always suffice when
`0 < b`, and the fuel only makes the recursion structural. -/
def chunkFuel (b : Nat) : Nat → List α → List (List α)
  | _, [] => []
  | 0, _ :: _ => []
  | fuel + 1, x :: xs =>
    if b = 0 then []
    else (x :: xs).take b :: chunkFuel b fuel ((x :: xs).drop b)

/-- Contiguous chunking of a list into pieces of size at most `b`
(`DocumentArray.batch(batch_size=b)`); `b = 0` is outside the contract
(the library errors) and yields no batches here. -/
def chunkList (b : Nat) (xs : List α) : List (List α) :=
  chunkFuel b xs.length xs

/-- The batches of filtered document indices traversed by the `encode` loop. -/
def encodeBatches (self : CLIPTextEncoder) (p : Params) (docs : List Document) :
    List (List Nat) :=
  chunkList (effBatchSize p self) (filteredIdx self p docs)

/-- Overwrite the `embedding` field (`doc.embedding = embedding`). -/
def setEmbedding (e : List Int) (d : Document) : Document :=
  { d with embedding := some e }

/-- Update the element at index `i` of a list in place. -/
def modifyIdx (f : α → α) : Nat → List α → List α
  | _, [] => []
  | 0, a :: as => f a :: as
  | n + 1, a :: as => a :: modifyIdx f n as

/-- The write-back loop
`for doc, embedding in zip(docs_batch, embeddings): doc.embedding = embedding`:
each index of the batch receives the embedding at its position (zip truncates
to the shorter list). -/
def writeBatch (acc : List Document) (idxs : List Nat) (embs : List (List Int)) :
    List Document :=
  (idxs.zip embs).foldl (fun a pr => modifyIdx (setEmbedding pr.2) pr.1 a) acc

/-- One iteration of the `encode` loop on a batch of document indices:
extract the batch texts, run the model (one vector per text), and write each
vector back onto its document. -/
def processBatch (embed : String → List Int) (acc : List Document)
    (batch : List Nat) : List Document :=
  let texts := batch.map (textAt acc)
  let embs := texts.map embed
  writeBatch acc batch embs

/-- Embedding of `CLIPTextEncoder.encode`: resolve effective parameters,
select, filter, batch, and process each batch in order, mutating the
collection in place.  `embed` abstracts the external tokenizer+model call on
a single text. -/
def CLIPTextEncoder.encode (embed : String → List Int) (self : CLIPTextEncoder)
    (p : Params) (docs : List Document) : List Document :=
  (encodeBatches self p docs).foldl (processBatch embed) docs

/-- A fallible model call for one batch of texts: `bad` marks the batches on
which the external tokenizer/model raises (with message `err`); otherwise it
returns one vector per text, as `modelCall`'s pure counterpart does. -/
def modelCall (embed : String → List Int) (bad : List String → Bool)
    (err : String) (texts : List String) : Except String (List (List Int)) :=
  if bad texts then Except.error err else Except.ok (texts.map embed)

/-- The `encode` loop with a fallible model call: batches are processed in
order until one raises; the exception unwinds the loop, so the partially
mutated collection and the error are what the caller observes. -/
def encodeExcGo (mc : List String → Except String (List (List Int))) :
    List (List Nat) → List Document → List Document × Option String
  | [], acc => (acc, none)
  | b :: bs, acc =>
    match mc (b.map (textAt acc)) with
    | Except.error e => (acc, some e)
    | Except.ok embs => encodeExcGo mc bs (writeBatch acc b embs)

/-- Embedding of `CLIPTextEncoder.encode` with a fallible model call. -/
def encodeExc (mc : List String → Except String (List (List Int)))
    (self : CLIPTextEncoder) (p : Params) (docs : List Document) :
    List Document × Option String :=
  encodeExcGo mc (encodeBatches self p docs) docs

/-- Per-document effect of `encode` on a document selected by the root path:
documents with truthy text get `embedding := embed text`; others are
untouched.  (Derived characterization, proved below to equal `encode`.) -/
def encStep (embed : String → List Int) (d : Document) : Document :=
  if d.text = "" then d else { d with embedding := some (embed d.text) }

/-- Write the embedding of a single document from its own text (proof
scaffolding: the net effect of the write-back loop on one document). -/
def touch (embed : String → List Int) (d : Document) : Document :=
  setEmbedding (embed d.text) d

/-- Apply `touch` to the document at index `i` (proof scaffolding: one
write of the batch loop, reading the text at write time). -/
def encodeAt (embed : String → List Int) (acc : List Document) (i : Nat) :
    List Document :=
  modifyIdx (touch embed) i acc

/-- The reference construction: all defaults of `__init__`
(`openai/clip-vit-base-patch32`, tokenizer `None`, max length 77, cpu,
access path `@r`, no deprecated alias, batch size 32). -/
def referenceInit : InitResult :=
  CLIPTextEncoder.init "openai/clip-vit-base-patch32" none 77 "cpu" "@r" none 32

/-- The encoder configured by the reference construction. -/
def refSelf : CLIPTextEncoder := referenceInit.self

/-- An empty request `parameters` mapping. -/
def noParams : Params := ⟨none, none⟩

/-- A request `parameters` mapping carrying only `batch_size: 10`. -/
def p10 : Params := ⟨none, some 10⟩

/-- A request `parameters` mapping carrying only `batch_size: 2`. -/
def p2 : Params := ⟨none, some 2⟩

/-- A stand-in model of output dimensionality 512 (the reference CLIP text
tower's output width). -/
def embed512 : String → List Int := fun _ => List.replicate 512 0

/-- A stand-in model whose vectors depend on the input text. -/
def embedLen : String → List Int := fun s => [Int.ofNat s.length, 7]

/-- A document with the text used by the repository's integration test. -/
def sampleDoc : Document := ⟨"just some random text here", none, ""⟩

/-- A document with empty text (skipped by the truthiness filter). -/
def emptyDoc : Document := ⟨"", none, "kept"⟩

/-- Twenty-five qualifying documents (the spec's batching scenario). -/
def docs25 : List Document := List.replicate 25 sampleDoc

/-- A mixed collection: qualifying, empty, qualifying. -/
def docsMix : List Document := [⟨"a", none, "x"⟩, ⟨"", none, "y"⟩, ⟨"b", none, "z"⟩]

/-- Four qualifying documents, the third of which triggers the failing
model call in the error-propagation witness. -/
def docs4 : List Document :=
  [⟨"a", none, ""⟩, ⟨"b", none, ""⟩, ⟨"bad", none, ""⟩, ⟨"d", none, ""⟩]

/-- Failure trigger: the model call raises exactly on a batch containing
the text "bad". -/
def badBatch : List String → Bool := fun ts => ts.contains "bad"

theorem touch_touch (embed : String → List Int) (d : Document) :
    touch embed (touch embed d) = touch embed d := rfl

theorem touch_text (embed : String → List Int) (d : Document) :
    (touch embed d).text = d.text := rfl

theorem touch_other (embed : String → List Int) (d : Document) :
    (touch embed d).other = d.other := rfl

theorem modifyIdx_length (f : α → α) (i : Nat) (l : List α) :
    (modifyIdx f i l).length = l.length := by
  induction l generalizing i with
  | nil => cases i <;> rfl
  | cons a as ih =>
    cases i with
    | zero => rfl
    | succ n => simp [modifyIdx, ih]

theorem modifyIdx_getElem? (f : α → α) (i j : Nat) (l : List α) :
    (modifyIdx f i l)[j]? = if i = j then Option.map f l[j]? else l[j]? := by
  induction l generalizing i j with
  | nil => simp [modifyIdx]
  | cons a as ih =>
    cases i with
    | zero =>
      cases j with
      | zero => simp [modifyIdx]
      | succ m => simp [modifyIdx]
    | succ n =>
      cases j with
      | zero => simp [modifyIdx]
      | succ m =>
        simp only [modifyIdx, List.getElem?_cons_succ, ih]
        by_cases h : n = m
        · simp [h]
        · simp [h, fun hc => h (Nat.succ_injective hc)]

theorem encodeAt_getElem? (embed : String → List Int) (acc : List Document)
    (i j : Nat) :
    (encodeAt embed acc i)[j]?
      = if i = j then Option.map (touch embed) acc[j]? else acc[j]? :=
  modifyIdx_getElem? (touch embed) i j acc

theorem foldl_encodeAt_getElem?_notMem (embed : String → List Int)
    (idxs : List Nat) (acc : List Document) (j : Nat) (hj : j ∉ idxs) :
    (idxs.foldl (encodeAt embed) acc)[j]? = acc[j]? := by
  induction idxs generalizing acc with
  | nil => rfl
  | cons i is ih =>
    have h1 : j ≠ i := fun h => hj (h ▸ List.mem_cons_self i is)
    have h2 : j ∉ is := fun h => hj (List.mem_cons_of_mem i h)
    rw [List.foldl_cons, ih _ h2, encodeAt_getElem?, if_neg (fun h => h1 h.symm)]

theorem foldl_encodeAt_getElem?_mem (embed : String → List Int)
    (idxs : List Nat) (acc : List Document) (j : Nat) (hj : j ∈ idxs) :
    (idxs.foldl (encodeAt embed) acc)[j]? = Option.map (touch embed) acc[j]? := by
  induction idxs generalizing acc with
  | nil => exact absurd hj (List.not_mem_nil j)
  | cons i is ih =>
    rw [List.foldl_cons]
    by_cases hmem : j ∈ is
    · rw [ih _ hmem, encodeAt_getElem?]
      by_cases hij : i = j
      · subst hij
        rw [if_pos rfl, Option.map_map]
        cases acc[i]? with
        | none => rfl
        | some d => simp [Function.comp, touch_touch]
      · rw [if_neg hij]
    · have hji : j = i := by
        cases List.mem_cons.mp hj with
        | inl h => exact h
        | inr h => exact absurd h hmem
      subst hji
      rw [foldl_encodeAt_getElem?_notMem embed is _ j hmem, encodeAt_getElem?,
        if_pos rfl]

theorem foldl_encodeAt_length (embed : String → List Int) (idxs : List Nat)
    (acc : List Document) :
    (idxs.foldl (encodeAt embed) acc).length = acc.length := by
  induction idxs generalizing acc with
  | nil => rfl
  | cons i is ih => rw [List.foldl_cons, ih, encodeAt, modifyIdx_length]

theorem textAt_foldl_encodeAt (embed : String → List Int) (idxs : List Nat)
    (acc : List Document) (i : Nat) :
    textAt (idxs.foldl (encodeAt embed) acc) i = textAt acc i := by
  unfold textAt
  rw [List.getD_eq_getElem?_getD, List.getD_eq_getElem?_getD]
  by_cases hmem : i ∈ idxs
  · rw [foldl_encodeAt_getElem?_mem embed idxs acc i hmem]
    cases acc[i]? with
    | none => rfl
    | some d => simp [touch_text]
  · rw [foldl_encodeAt_getElem?_notMem embed idxs acc i hmem]

theorem textAt_encodeAt (embed : String → List Int) (acc : List Document)
    (k i : Nat) : textAt (encodeAt embed acc k) i = textAt acc i :=
  textAt_foldl_encodeAt embed [k] acc i

theorem writeBatch_nil_idxs (acc : List Document) (embs : List (List Int)) :
    writeBatch acc [] embs = acc := rfl

theorem writeBatch_cons (acc : List Document) (i : Nat) (idxs : List Nat)
    (e : List Int) (embs : List (List Int)) :
    writeBatch acc (i :: idxs) (e :: embs)
      = writeBatch (modifyIdx (setEmbedding e) i acc) idxs embs := rfl

theorem modifyIdx_setEmbedding_textAt (embed : String → List Int)
    (acc : List Document) (i : Nat) :
    modifyIdx (setEmbedding (embed (textAt acc i))) i acc = encodeAt embed acc i := by
  apply List.ext_getElem?
  intro j
  rw [encodeAt_getElem?, modifyIdx_getElem?]
  by_cases hij : i = j
  · subst hij
    rw [if_pos rfl, if_pos rfl]
    cases hcell : acc[i]? with
    | none => rfl
    | some d =>
      have htext : textAt acc i = d.text := by
        unfold textAt
        rw [List.getD_eq_getElem?_getD, hcell]
        rfl
      simp [htext, touch]
  · rw [if_neg hij, if_neg hij]

theorem writeBatch_map_eq_foldl (embed : String → List Int) (batch : List Nat)
    (acc : List Document) :
    writeBatch acc batch (batch.map (fun i => embed (textAt acc i)))
      = batch.foldl (encodeAt embed) acc := by
  induction batch generalizing acc with
  | nil => rfl
  | cons i is ih =>
    rw [List.map_cons, writeBatch_cons, List.foldl_cons,
      modifyIdx_setEmbedding_textAt]
    have hmap : is.map (fun k => embed (textAt acc k))
        = is.map (fun k => embed (textAt (encodeAt embed acc i) k)) :=
      List.map_congr_left (fun k _ => by rw [textAt_encodeAt])
    rw [hmap, ih]

theorem processBatch_eq_foldl (embed : String → List Int) (acc : List Document)
    (batch : List Nat) :
    processBatch embed acc batch = batch.foldl (encodeAt embed) acc := by
  show writeBatch acc batch ((batch.map (textAt acc)).map embed)
    = batch.foldl (encodeAt embed) acc
  rw [List.map_map]
  have hcomp : (embed ∘ textAt acc) = fun i => embed (textAt acc i) := rfl
  rw [hcomp, writeBatch_map_eq_foldl]

theorem chunkFuel_flatten {α : Type} (b : Nat) (hb : 0 < b) :
    ∀ (fuel : Nat) (xs : List α), xs.length ≤ fuel →
      (chunkFuel b fuel xs).flatten = xs := by
  intro fuel
  induction fuel with
  | zero =>
    intro xs hxs
    have hnil : xs = [] := List.eq_nil_of_length_eq_zero (Nat.le_zero.mp hxs)
    subst hnil
    rfl
  | succ n ih =>
    intro xs hxs
    cases xs with
    | nil => rfl
    | cons x tl =>
      have hbne : ¬ b = 0 := Nat.pos_iff_ne_zero.mp hb
      show (if b = 0 then []
        else (x :: tl).take b :: chunkFuel b n ((x :: tl).drop b)).flatten
          = x :: tl
      rw [if_neg hbne, List.flatten_cons]
      have hdrop : ((x :: tl).drop b).length ≤ n := by
        rw [List.length_drop]
        simp only [List.length_cons] at hxs ⊢
        omega
      rw [ih _ hdrop, List.take_append_drop]

theorem chunkList_flatten {α : Type} (b : Nat) (hb : 0 < b) (xs : List α) :
    (chunkList b xs).flatten = xs :=
  chunkFuel_flatten b hb xs.length xs (Nat.le_refl _)

theorem chunkFuel_mem_length_le {α : Type} (b : Nat) :
    ∀ (fuel : Nat) (xs : List α), ∀ l ∈ chunkFuel b fuel xs, l.length ≤ b := by
  intro fuel
  induction fuel with
  | zero =>
    intro xs l hl
    cases xs with
    | nil => exact absurd hl (List.not_mem_nil l)
    | cons x tl => exact absurd hl (List.not_mem_nil l)
  | succ n ih =>
    intro xs l hl
    cases xs with
    | nil => exact absurd hl (List.not_mem_nil l)
    | cons x tl =>
      by_cases hbz : b = 0
      · rw [show chunkFuel b (n + 1) (x :: tl) = [] by
          show (if b = 0 then _ else _) = []
          rw [if_pos hbz]] at hl
        exact absurd hl (List.not_mem_nil l)
      · rw [show chunkFuel b (n + 1) (x :: tl)
            = (x :: tl).take b :: chunkFuel b n ((x :: tl).drop b) by
          show (if b = 0 then _ else _) = _
          rw [if_neg hbz]] at hl
        cases List.mem_cons.mp hl with
        | inl h =>
          subst h
          rw [List.length_take]
          exact Nat.min_le_left _ _
        | inr h => exact ih _ l h

theorem chunkList_mem_length_le {α : Type} (b : Nat) (xs : List α) :
    ∀ l ∈ chunkList b xs, l.length ≤ b :=
  chunkFuel_mem_length_le b xs.length xs

theorem mem_filteredIdx (self : CLIPTextEncoder) (p : Params)
    (docs : List Document) (j : Nat) (hpath : effAccessPaths p self = "@r") :
    j ∈ filteredIdx self p docs ↔ j < docs.length ∧ textAt docs j ≠ "" := by
  unfold filteredIdx selectPath
  rw [hpath, if_pos rfl, List.mem_filter, List.mem_range, bne_iff_ne]

theorem encode_eq_foldl (embed : String → List Int) (self : CLIPTextEncoder)
    (p : Params) (docs : List Document) (hb : 0 < effBatchSize p self) :
    CLIPTextEncoder.encode embed self p docs
      = (filteredIdx self p docs).foldl (encodeAt embed) docs := by
  unfold CLIPTextEncoder.encode encodeBatches
  have hfun : processBatch embed = fun acc bk => bk.foldl (encodeAt embed) acc :=
    funext (fun acc => funext (fun bk => processBatch_eq_foldl embed acc bk))
  rw [hfun, ← List.foldl_flatten, chunkList_flatten _ hb]

theorem encode_eq_map (embed : String → List Int) (self : CLIPTextEncoder)
    (p : Params) (docs : List Document) (hpath : effAccessPaths p self = "@r")
    (hb : 0 < effBatchSize p self) :
    CLIPTextEncoder.encode embed self p docs = docs.map (encStep embed) := by
  rw [encode_eq_foldl embed self p docs hb]
  apply List.ext_getElem?
  intro j
  rw [List.getElem?_map]
  by_cases hmem : j ∈ filteredIdx self p docs
  · obtain ⟨hlt, htext⟩ := (mem_filteredIdx self p docs j hpath).mp hmem
    rw [foldl_encodeAt_getElem?_mem embed _ docs j hmem,
      List.getElem?_eq_getElem hlt]
    have htext2 : docs[j].text ≠ "" := by
      have : textAt docs j = docs[j].text := by
        unfold textAt
        rw [List.getD_eq_getElem?_getD, List.getElem?_eq_getElem hlt]
        rfl
      rw [this] at htext
      exact htext
    show some (touch embed docs[j]) = some (encStep embed docs[j])
    rw [show encStep embed docs[j] = touch embed docs[j] by
      unfold encStep touch setEmbedding
      rw [if_neg htext2]]
  · rw [foldl_encodeAt_getElem?_notMem embed _ docs j hmem]
    by_cases hlt : j < docs.length
    · have htext : textAt docs j = "" := by
        by_contra hne
        exact hmem ((mem_filteredIdx self p docs j hpath).mpr ⟨hlt, hne⟩)
      have htext2 : docs[j].text = "" := by
        unfold textAt at htext
        rw [List.getD_eq_getElem?_getD, List.getElem?_eq_getElem hlt] at htext
        exact htext
      rw [List.getElem?_eq_getElem hlt]
      show some docs[j] = some (encStep embed docs[j])
      rw [show encStep embed docs[j] = docs[j] by
        unfold encStep
        rw [if_pos htext2]]
    · rw [List.getElem?_eq_none (Nat.le_of_not_lt hlt)]
      rfl

theorem textAt_processBatch (embed : String → List Int) (acc : List Document)
    (batch : List Nat) (i : Nat) :
    textAt (processBatch embed acc batch) i = textAt acc i := by
  rw [processBatch_eq_foldl, textAt_foldl_encodeAt]

theorem processBatch_eq_writeBatch (embed : String → List Int)
    (acc : List Document) (batch : List Nat) :
    processBatch embed acc batch
      = writeBatch acc batch ((batch.map (textAt acc)).map embed) := rfl

theorem encodeExcGo_spec (embed : String → List Int) (bad : List String → Bool)
    (err : String) :
    ∀ (k : Nat) (bs : List (List Nat)) (acc : List Document),
      k < bs.length →
      (∀ j, j < k → bad ((bs.getD j []).map (textAt acc)) = false) →
      bad ((bs.getD k []).map (textAt acc)) = true →
      encodeExcGo (modelCall embed bad err) bs acc
        = ((bs.take k).foldl (processBatch embed) acc, some err) := by
  intro k
  induction k with
  | zero =>
    intro bs acc hk _hok hbad
    cases bs with
    | nil => exact absurd hk (Nat.lt_irrefl 0)
    | cons b tl =>
      have hb0 : (b :: tl).getD 0 [] = b := rfl
      rw [hb0] at hbad
      show (match modelCall embed bad err (b.map (textAt acc)) with
        | Except.error e => (acc, some e)
        | Except.ok embs => encodeExcGo (modelCall embed bad err) tl
            (writeBatch acc b embs))
        = (((b :: tl).take 0).foldl (processBatch embed) acc, some err)
      unfold modelCall
      rw [if_pos hbad]
      rfl
  | succ n ih =>
    intro bs acc hk hok hbad
    cases bs with
    | nil => exact absurd hk (Nat.not_lt_zero _)
    | cons b tl =>
      have hok0 : bad (b.map (textAt acc)) = false := hok 0 (Nat.succ_pos n)
      show (match modelCall embed bad err (b.map (textAt acc)) with
        | Except.error e => (acc, some e)
        | Except.ok embs => encodeExcGo (modelCall embed bad err) tl
            (writeBatch acc b embs))
        = (((b :: tl).take (n + 1)).foldl (processBatch embed) acc, some err)
      unfold modelCall
      rw [if_neg (by rw [hok0]; exact Bool.false_ne_true)]
      show encodeExcGo (modelCall embed bad err) tl
          (writeBatch acc b ((b.map (textAt acc)).map embed))
        = (((b :: tl).take (n + 1)).foldl (processBatch embed) acc, some err)
      rw [← processBatch_eq_writeBatch]
      have hTfun : textAt (processBatch embed acc b) = textAt acc :=
        funext (fun i => textAt_processBatch embed acc b i)
      have hok2 : ∀ j, j < n →
          bad ((tl.getD j []).map (textAt (processBatch embed acc b))) = false := by
        intro j hj
        rw [hTfun]
        exact hok (j + 1) (Nat.succ_lt_succ hj)
      have hbad2 :
          bad ((tl.getD n []).map (textAt (processBatch embed acc b))) = true := by
        rw [hTfun]
        exact hbad
      rw [ih tl (processBatch embed acc b) (Nat.lt_of_succ_lt_succ hk) hok2 hbad2]
      rfl

theorem encStep_text (embed : String → List Int) (d : Document) :
    (encStep embed d).text = d.text := by
  unfold encStep
  by_cases h : d.text = ""
  · rw [if_pos h]
  · rw [if_neg h]

theorem encStep_other (embed : String → List Int) (d : Document) :
    (encStep embed d).other = d.other := by
  unfold encStep
  by_cases h : d.text = ""
  · rw [if_pos h]
  · rw [if_neg h]

theorem encStep_empty (embed : String → List Int) (d : Document)
    (h : d.text = "") : encStep embed d = d := by
  unfold encStep
  rw [if_pos h]

theorem getD_map_of_lt (f : Document → Document) (docs : List Document)
    (j : Nat) (hj : j < docs.length) :
    (docs.map f).getD j default = f (docs.getD j default) := by
  rw [List.getD_eq_getElem?_getD, List.getD_eq_getElem?_getD, List.getElem?_map,
    List.getElem?_eq_getElem hj]
  rfl

/-- C1: for every record selected by the effective access path whose `text`
is a non-empty string, after `encode` that record's `embedding` is a non-null
vector of the model's fixed output dimensionality (512 for the reference
configuration). -/
theorem encode_writes_fixed_dim_embedding
    (embed : String → List Int) (dim : Nat) (self : CLIPTextEncoder)
    (p : Params) (docs : List Document) (j : Nat)
    (hdim : ∀ s, (embed s).length = dim)
    (hpath : effAccessPaths p self = "@r")
    (hb : 0 < effBatchSize p self)
    (hj : j < docs.length)
    (htext : (docs.getD j default).text ≠ "") :
    ∃ v : List Int,
      ((CLIPTextEncoder.encode embed self p docs).getD j default).embedding
          = some v
        ∧ v.length = dim := by
  rw [encode_eq_map embed self p docs hpath hb,
    getD_map_of_lt (encStep embed) docs j hj]
  refine ⟨embed (docs.getD j default).text, ?_, hdim _⟩
  unfold encStep
  rw [if_neg htext]

/-- Witness for C1: the reference configuration, a 512-dimensional model
stand-in, and one document with the integration test's text. -/
theorem encode_writes_fixed_dim_embedding_witness :
    (∀ s, (embed512 s).length = 512)
    ∧ effAccessPaths noParams refSelf = "@r"
    ∧ 0 < effBatchSize noParams refSelf
    ∧ 0 < [sampleDoc].length
    ∧ ([sampleDoc].getD 0 default).text ≠ ""
    ∧ ∃ v : List Int,
        ((CLIPTextEncoder.encode embed512 refSelf noParams [sampleDoc]).getD 0
            default).embedding = some v
          ∧ v.length = 512 :=
  ⟨fun _ => List.length_replicate 512 0, by decide, by decide, by decide,
    by decide,
    encode_writes_fixed_dim_embedding embed512 512 refSelf noParams [sampleDoc]
      0 (fun _ => List.length_replicate 512 0) (by decide) (by decide)
      (by decide) (by decide)⟩

/-- C2: `encode` modifies no record field other than `embedding` (its output
has the same length, and every record keeps its `text` and its other fields),
and every selected record whose `text` is empty is left completely unchanged,
its `embedding` staying unset if it was unset.  (The Python method returns
`None`; the in-place mutation is modelled by the returned list.) -/
theorem encode_frame_only_embedding
    (embed : String → List Int) (self : CLIPTextEncoder) (p : Params)
    (docs : List Document)
    (hpath : effAccessPaths p self = "@r") (hb : 0 < effBatchSize p self) :
    (CLIPTextEncoder.encode embed self p docs).length = docs.length
    ∧ (∀ j : Nat,
        ((CLIPTextEncoder.encode embed self p docs)[j]?).map Document.text
          = (docs[j]?).map Document.text)
    ∧ (∀ j : Nat,
        ((CLIPTextEncoder.encode embed self p docs)[j]?).map Document.other
          = (docs[j]?).map Document.other)
    ∧ (∀ j : Nat, (docs[j]?).map Document.text = some ""
        → (CLIPTextEncoder.encode embed self p docs)[j]? = docs[j]?) := by
  rw [encode_eq_map embed self p docs hpath hb]
  refine ⟨List.length_map _ _, ?_, ?_, ?_⟩
  · intro j
    rw [List.getElem?_map]
    cases docs[j]? with
    | none => rfl
    | some d =>
      show some (encStep embed d).text = some d.text
      rw [encStep_text]
  · intro j
    rw [List.getElem?_map]
    cases docs[j]? with
    | none => rfl
    | some d =>
      show some (encStep embed d).other = some d.other
      rw [encStep_other]
  · intro j h
    rw [List.getElem?_map]
    cases hc : docs[j]? with
    | none => rfl
    | some d =>
      rw [hc] at h
      have h2 : some d.text = some "" := h
      have hd : d.text = "" := Option.some.inj h2
      show some (encStep embed d) = some d
      rw [encStep_empty embed d hd]

/-- Witness for C2: the spec scenario of one empty-text and one non-empty
record, under the reference configuration. -/
theorem encode_frame_only_embedding_witness :
    effAccessPaths noParams refSelf = "@r"
    ∧ 0 < effBatchSize noParams refSelf
    ∧ ((CLIPTextEncoder.encode embedLen refSelf noParams [emptyDoc, sampleDoc]).length
          = [emptyDoc, sampleDoc].length
      ∧ (∀ j : Nat,
          ((CLIPTextEncoder.encode embedLen refSelf noParams
              [emptyDoc, sampleDoc])[j]?).map Document.text
            = ([emptyDoc, sampleDoc][j]?).map Document.text)
      ∧ (∀ j : Nat,
          ((CLIPTextEncoder.encode embedLen refSelf noParams
              [emptyDoc, sampleDoc])[j]?).map Document.other
            = ([emptyDoc, sampleDoc][j]?).map Document.other)
      ∧ (∀ j : Nat, ([emptyDoc, sampleDoc][j]?).map Document.text = some ""
          → (CLIPTextEncoder.encode embedLen refSelf noParams
              [emptyDoc, sampleDoc])[j]? = [emptyDoc, sampleDoc][j]?)) :=
  ⟨by decide, by decide,
    encode_frame_only_embedding embedLen refSelf noParams [emptyDoc, sampleDoc]
      (by decide) (by decide)⟩

/-- C3: within every batch processed by `encode`, the record at the q-th
batch position receives the q-th vector the model produces for that batch
(positional correspondence), and reordering the input records reorders the
assigned embeddings identically. -/
theorem encode_positional_correspondence
    (embed : String → List Int) (self : CLIPTextEncoder) (p : Params)
    (docs : List Document)
    (hpath : effAccessPaths p self = "@r") (hb : 0 < effBatchSize p self) :
    (∀ bk ∈ encodeBatches self p docs, ∀ q : Nat, q < bk.length →
      ((CLIPTextEncoder.encode embed self p docs).getD (bk.getD q 0)
          default).embedding
        = some (((bk.map (textAt docs)).map embed).getD q []))
    ∧ (∀ sel : List Nat, (∀ i ∈ sel, i < docs.length) →
      CLIPTextEncoder.encode embed self p (sel.map (fun i => docs.getD i default))
        = sel.map (fun i => (CLIPTextEncoder.encode embed self p docs).getD i
            default)) := by
  constructor
  · intro bk hbk q hq
    have hgq : bk.getD q 0 = bk[q] := by
      rw [List.getD_eq_getElem?_getD, List.getElem?_eq_getElem hq]
      rfl
    have hflat : bk[q] ∈ (encodeBatches self p docs).flatten :=
      List.mem_flatten.mpr ⟨bk, hbk, List.getElem_mem hq⟩
    have hF : bk[q] ∈ filteredIdx self p docs := by
      have heq : (encodeBatches self p docs).flatten = filteredIdx self p docs :=
        chunkList_flatten _ hb _
      rw [heq] at hflat
      exact hflat
    obtain ⟨hlt, htext⟩ := (mem_filteredIdx self p docs bk[q] hpath).mp hF
    have hrhs : ((bk.map (textAt docs)).map embed).getD q []
        = embed (textAt docs bk[q]) := by
      rw [List.getD_eq_getElem?_getD, List.getElem?_map, List.getElem?_map,
        List.getElem?_eq_getElem hq]
      rfl
    rw [hgq, hrhs, encode_eq_map embed self p docs hpath hb,
      getD_map_of_lt (encStep embed) docs bk[q] hlt]
    have htext2 : (docs.getD bk[q] default).text ≠ "" := htext
    unfold encStep
    rw [if_neg htext2]
    rfl
  · intro sel hsel
    rw [encode_eq_map embed self p _ hpath hb,
      encode_eq_map embed self p docs hpath hb, List.map_map]
    exact List.map_congr_left
      (fun i hi => (getD_map_of_lt (encStep embed) docs i (hsel i hi)).symm)

/-- Witness for C3: the mixed three-document collection, batch size 2, and
the reordering [2, 0, 1]. -/
theorem encode_positional_correspondence_witness :
    effAccessPaths p2 refSelf = "@r"
    ∧ 0 < effBatchSize p2 refSelf
    ∧ (∀ i ∈ [2, 0, 1], i < docsMix.length)
    ∧ ((∀ bk ∈ encodeBatches refSelf p2 docsMix, ∀ q : Nat, q < bk.length →
        ((CLIPTextEncoder.encode embedLen refSelf p2 docsMix).getD (bk.getD q 0)
            default).embedding
          = some (((bk.map (textAt docsMix)).map embedLen).getD q []))
      ∧ (∀ sel : List Nat, (∀ i ∈ sel, i < docsMix.length) →
        CLIPTextEncoder.encode embedLen refSelf p2
            (sel.map (fun i => docsMix.getD i default))
          = sel.map (fun i => (CLIPTextEncoder.encode embedLen refSelf p2
              docsMix).getD i default))) :=
  ⟨by decide, by decide, by decide,
    encode_positional_correspondence embedLen refSelf p2 docsMix (by decide)
      (by decide)⟩

/-- C4: `encode` partitions the filtered sub-sequence into contiguous,
order-preserving batches (their concatenation is exactly the filtered
sub-sequence) each containing at most the effective batch size records. -/
theorem encode_batches_bounded_ordered
    (self : CLIPTextEncoder) (p : Params) (docs : List Document)
    (hb : 0 < effBatchSize p self) :
    (∀ bk ∈ encodeBatches self p docs, bk.length ≤ effBatchSize p self)
    ∧ (encodeBatches self p docs).flatten = filteredIdx self p docs :=
  ⟨chunkList_mem_length_le _ _, chunkList_flatten _ hb _⟩

/-- Witness for C4: 25 qualifying records with `batch_size: 10` produce
exactly the three batches of sizes 10, 10 and 5, in that order. -/
theorem encode_batches_bounded_ordered_witness :
    0 < effBatchSize p10 refSelf
    ∧ ((∀ bk ∈ encodeBatches refSelf p10 docs25,
          bk.length ≤ effBatchSize p10 refSelf)
      ∧ (encodeBatches refSelf p10 docs25).flatten = filteredIdx refSelf p10 docs25)
    ∧ (encodeBatches refSelf p10 docs25).map List.length = [10, 10, 5] :=
  ⟨by decide, encode_batches_bounded_ordered refSelf p10 docs25 (by decide),
    by decide⟩

/-- C5: the per-record embeddings written by `encode` are independent of the
chosen batch size: any two positive effective batch sizes over the same
selection yield identical results. -/
theorem encode_batch_size_irrelevant
    (embed : String → List Int) (self : CLIPTextEncoder) (docs : List Document)
    (p1 p2 : Params)
    (hpath1 : effAccessPaths p1 self = "@r")
    (hpath2 : effAccessPaths p2 self = "@r")
    (hb1 : 0 < effBatchSize p1 self) (hb2 : 0 < effBatchSize p2 self) :
    CLIPTextEncoder.encode embed self p1 docs
      = CLIPTextEncoder.encode embed self p2 docs := by
  rw [encode_eq_map embed self p1 docs hpath1 hb1,
    encode_eq_map embed self p2 docs hpath2 hb2]

/-- Witness for C5: batch size 1 versus batch size 50 on the mixed
collection. -/
theorem encode_batch_size_irrelevant_witness :
    effAccessPaths ⟨none, some 1⟩ refSelf = "@r"
    ∧ effAccessPaths ⟨none, some 50⟩ refSelf = "@r"
    ∧ 0 < effBatchSize ⟨none, some 1⟩ refSelf
    ∧ 0 < effBatchSize ⟨none, some 50⟩ refSelf
    ∧ CLIPTextEncoder.encode embedLen refSelf ⟨none, some 1⟩ docsMix
        = CLIPTextEncoder.encode embedLen refSelf ⟨none, some 50⟩ docsMix :=
  ⟨by decide, by decide, by decide, by decide,
    encode_batch_size_irrelevant embedLen refSelf docsMix ⟨none, some 1⟩
      ⟨none, some 50⟩ (by decide) (by decide) (by decide) (by decide)⟩

/-- C6: the effective selection path and batch size come from the
`parameters` keys `access_paths` and `batch_size` when present and fall back
to the construction-time defaults when absent; a call with overrides behaves
exactly like a call on an encoder constructed with those values, so the
override affects only that call. -/
theorem encode_parameters_override_defaults
    (embed : String → List Int) (self : CLIPTextEncoder) (ap : String)
    (b : Nat) (docs : List Document) :
    effAccessPaths ⟨none, none⟩ self = self.access_paths
    ∧ effBatchSize ⟨none, none⟩ self = self.batch_size
    ∧ (∀ bo : Option Nat, effAccessPaths ⟨some ap, bo⟩ self = ap)
    ∧ (∀ ao : Option String, effBatchSize ⟨ao, some b⟩ self = b)
    ∧ CLIPTextEncoder.encode embed self ⟨some ap, some b⟩ docs
        = CLIPTextEncoder.encode embed
            { self with access_paths := ap, batch_size := b } ⟨none, none⟩ docs :=
  ⟨rfl, rfl, fun _ => rfl, fun _ => rfl, rfl⟩

/-- C7: supplying the deprecated `traversal_paths` at construction overwrites
`access_paths` with it (whatever `access_paths` argument was given) and emits
exactly one deprecation warning; leaving it absent uses `access_paths` and
emits no warning; and supplying the alias yields exactly the configuration of
supplying the same value as `access_paths`, so encoding outcome is unchanged. -/
theorem init_traversal_paths_alias
    (pmp : String) (bt : Option String) (ml : Nat) (dev : String)
    (ap t : String) (b : Nat) :
    (CLIPTextEncoder.init pmp bt ml dev ap (some t) b).self.access_paths = t
    ∧ (CLIPTextEncoder.init pmp bt ml dev ap (some t) b).deprecationWarnings.length
        = 1
    ∧ (CLIPTextEncoder.init pmp bt ml dev ap none b).self.access_paths = ap
    ∧ (CLIPTextEncoder.init pmp bt ml dev ap none b).deprecationWarnings = []
    ∧ (CLIPTextEncoder.init pmp bt ml dev ap (some t) b).self
        = (CLIPTextEncoder.init pmp bt ml dev t none b).self :=
  ⟨rfl, rfl, rfl, rfl, rfl⟩

/-- C8: when the model call raises on batch `k` of an `encode` request (all
earlier batches succeeding), the error propagates to the caller untranslated,
the batches after `k` are not processed, and the writes of the `k` completed
batches remain: the observable state is exactly the fold over the first `k`
batches, paired with the propagated error. -/
theorem encode_error_propagates_partial
    (embed : String → List Int) (bad : List String → Bool) (err : String)
    (self : CLIPTextEncoder) (p : Params) (docs : List Document) (k : Nat)
    (hk : k < (encodeBatches self p docs).length)
    (hok : ∀ j, j < k →
      bad (((encodeBatches self p docs).getD j []).map (textAt docs)) = false)
    (hbad : bad (((encodeBatches self p docs).getD k []).map (textAt docs))
      = true) :
    encodeExc (modelCall embed bad err) self p docs
      = (((encodeBatches self p docs).take k).foldl (processBatch embed) docs,
          some err) :=
  encodeExcGo_spec embed bad err k (encodeBatches self p docs) docs hk hok hbad

/-- Witness for C8: four qualifying documents in batches of two; the second
batch contains the text "bad" and raises, the first batch's writes persist. -/
theorem encode_error_propagates_partial_witness :
    1 < (encodeBatches refSelf p2 docs4).length
    ∧ (∀ j, j < 1 →
        badBatch (((encodeBatches refSelf p2 docs4).getD j []).map (textAt docs4))
          = false)
    ∧ badBatch (((encodeBatches refSelf p2 docs4).getD 1 []).map (textAt docs4))
        = true
    ∧ encodeExc (modelCall embedLen badBatch "boom") refSelf p2 docs4
        = (((encodeBatches refSelf p2 docs4).take 1).foldl
            (processBatch embedLen) docs4, some "boom") :=
  ⟨by decide, by decide, by decide,
    encode_error_propagates_partial embedLen badBatch "boom" refSelf p2 docs4 1
      (by decide) (by decide) (by decide)⟩

/-- C9 counterexample: the claim says a supplied `base_tokenizer_model` is
used as the tokenizer identifier, but supplying the empty string yields the
model identifier instead (Python truthiness, not a `None` check). -/
theorem init_base_tokenizer_empty_not_used :
    (CLIPTextEncoder.init "openai/clip-vit-base-patch32" (some "") 77 "cpu"
        "@r" none 32).self.base_tokenizer_model ≠ ""
    ∧ (CLIPTextEncoder.init "openai/clip-vit-base-patch32" (some "") 77 "cpu"
        "@r" none 32).self.base_tokenizer_model
      = "openai/clip-vit-base-patch32" :=
  ⟨by decide, rfl⟩

/-- C9 (amended): with `base_tokenizer_model` equal to `None` or the empty
string, the tokenizer identifier falls back to the model identifier; a
supplied non-empty identifier is used instead. -/
theorem init_base_tokenizer_fallback
    (pmp : String) (ml : Nat) (dev ap : String) (tp : Option String) (b : Nat)
    (s : String) (hs : s ≠ "") :
    (CLIPTextEncoder.init pmp none ml dev ap tp b).self.base_tokenizer_model
        = pmp
    ∧ (CLIPTextEncoder.init pmp (some "") ml dev ap tp b).self.base_tokenizer_model
        = pmp
    ∧ (CLIPTextEncoder.init pmp (some s) ml dev ap tp b).self.base_tokenizer_model
        = s := by
  refine ⟨?_, ?_, ?_⟩
  · cases tp <;> rfl
  · cases tp <;> rfl
  · cases tp with
    | none =>
      show (if s = "" then pmp else s) = s
      rw [if_neg hs]
    | some t =>
      show (if s = "" then pmp else s) = s
      rw [if_neg hs]

/-- Witness for C9 (amended): the reference model identifier with a concrete
non-empty tokenizer identifier. -/
theorem init_base_tokenizer_fallback_witness :
    "bert-base-uncased" ≠ ""
    ∧ ((CLIPTextEncoder.init "openai/clip-vit-base-patch32" none 77 "cpu" "@r"
          none 32).self.base_tokenizer_model = "openai/clip-vit-base-patch32"
      ∧ (CLIPTextEncoder.init "openai/clip-vit-base-patch32" (some "") 77 "cpu"
          "@r" none 32).self.base_tokenizer_model = "openai/clip-vit-base-patch32"
      ∧ (CLIPTextEncoder.init "openai/clip-vit-base-patch32"
          (some "bert-base-uncased") 77 "cpu" "@r" none
          32).self.base_tokenizer_model = "bert-base-uncased") :=
  ⟨by decide,
    init_base_tokenizer_fallback "openai/clip-vit-base-patch32" 77 "cpu" "@r"
      none 32 "bert-base-uncased" (by decide)⟩

/-- C10: the tokenizer-identifier fallback triggers on any falsy
`base_tokenizer_model` value: both `None` and the empty string load the
tokenizer from the model identifier. -/
theorem init_base_tokenizer_truthiness
    (pmp : String) (ml : Nat) (dev ap : String) (tp : Option String) (b : Nat) :
    (CLIPTextEncoder.init pmp (some "") ml dev ap tp b).self.base_tokenizer_model
        = pmp
    ∧ (CLIPTextEncoder.init pmp none ml dev ap tp b).self.base_tokenizer_model
        = pmp := by
  constructor
  · cases tp <;> rfl
  · cases tp <;> rfl
